import Mathlib

/-!
Verification of the Slang shading-language compiler back end, shallowly
embedded from the C++ sources: the GLSL extension/version tracker, the
source-location tracking of the emission engine, the generics-lowering
pipeline, the type-legalization cache, and the structural emission
algorithms (switch grouping, struct-declaration ordering, loop labels,
forward declarations).
-/

namespace SlangSpec

/-!
Part 1: GLSL extension/version usage tracker, from emit.cpp lines 32-66.
-/

/-- Modelled from the spec: the ProfileVersion enumeration itself is declared
in a header that is not among the surveyed sources.  The spec (section 6) says
the version line is chosen from a closed table of supported version numbers,
and emit.cpp lines 1379-1390 enumerate exactly the GLSL versions 110..450,
with GLSL_110 the tracker's initial (and lowest) member.  We embed that closed
table; toNat reproduces the enumeration order that the source compares with
a cast to UInt. -/
inductive GLSLVersion
  | v110 | v120 | v130 | v140 | v150 | v330
  | v400 | v410 | v420 | v430 | v440 | v450
deriving DecidableEq, Repr

/-- Numeric view of a GLSL version, in the same order as the source enum. -/
def GLSLVersion.toNat : GLSLVersion → Nat
  | .v110 => 110
  | .v120 => 120
  | .v130 => 130
  | .v140 => 140
  | .v150 => 150
  | .v330 => 330
  | .v400 => 400
  | .v410 => 410
  | .v420 => 420
  | .v430 => 430
  | .v440 => 440
  | .v450 => 450

/-- Translation of requireGLSLVersionImpl (emit.cpp lines 57-66): the tracker
keeps the requested version only when it is strictly newer than the current
profileVersion. -/
def requireGLSLVersionImpl (tracker : GLSLVersion) (version : GLSLVersion) :
    GLSLVersion :=
  if tracker.toNat < version.toNat then version else tracker

/-- Initial value of ExtensionUsageTracker.profileVersion (emit.cpp line 38). -/
def initialProfileVersion : GLSLVersion := .v110

/-- Effect of a whole sequence of require-version calls on one fresh tracker. -/
def runRequireSequence (vs : List GLSLVersion) : GLSLVersion :=
  vs.foldl requireGLSLVersionImpl initialProfileVersion

lemma GLSLVersion.toNat_inj :
    ∀ a b : GLSLVersion, a.toNat = b.toNat → a = b := by
  intro a b
  cases a <;> cases b <;> decide

lemma GLSLVersion.le_toNat (v : GLSLVersion) : 110 ≤ v.toNat := by
  cases v <;> simp [GLSLVersion.toNat]

lemma requireSeq_spec (vs : List GLSLVersion) : ∀ t : GLSLVersion,
    (vs.foldl requireGLSLVersionImpl t = t ∨ vs.foldl requireGLSLVersionImpl t ∈ vs)
    ∧ t.toNat ≤ (vs.foldl requireGLSLVersionImpl t).toNat
    ∧ ∀ v ∈ vs, v.toNat ≤ (vs.foldl requireGLSLVersionImpl t).toNat := by
  induction vs with
  | nil => intro t; simp
  | cons a vs ih =>
    intro t
    have h := ih (requireGLSLVersionImpl t a)
    obtain ⟨h1, h2, h3⟩ := h
    have hstep : t.toNat ≤ (requireGLSLVersionImpl t a).toNat := by
      unfold requireGLSLVersionImpl
      split <;> omega
    have hstepa : a.toNat ≤ (requireGLSLVersionImpl t a).toNat := by
      unfold requireGLSLVersionImpl
      split <;> omega
    refine ⟨?_, by simpa using le_trans hstep h2, ?_⟩
    · rcases h1 with h1 | h1
      · rw [List.foldl_cons, h1]
        unfold requireGLSLVersionImpl
        split
        · exact Or.inr (List.mem_cons_self a vs)
        · exact Or.inl rfl
      · exact Or.inr (List.mem_cons_of_mem a (by simpa using h1))
    · intro v hv
      rcases List.mem_cons.mp hv with rfl | hv
      · exact le_trans hstepa (by simpa using h2)
      · simpa using h3 v hv

/-- C5: for every nonempty sequence of require-version calls on one
extension-usage tracker, the effective required version after all calls is
the maximum version requested (it is one of the requested versions and no
requested version is newer), and any single call requesting a version not
newer than the current effective version leaves the tracker unchanged. -/
theorem requireGLSLVersion_monotone_max (vs : List GLSLVersion) (hne : vs ≠ []) :
    (runRequireSequence vs ∈ vs
      ∧ ∀ v ∈ vs, v.toNat ≤ (runRequireSequence vs).toNat)
    ∧ ∀ t v : GLSLVersion, v.toNat ≤ t.toNat → requireGLSLVersionImpl t v = t := by
  obtain ⟨h1, _h2, h3⟩ := requireSeq_spec vs initialProfileVersion
  constructor
  · refine ⟨?_, h3⟩
    rcases h1 with h1 | h1
    · -- the fold never moved off the initial v110: every requested version
      -- is at most 110, hence equal to v110, so the result is in the list.
      obtain ⟨a, rest, rfl⟩ := List.exists_cons_of_ne_nil hne
      have ha : a = GLSLVersion.v110 := by
        have h := h3 a (List.mem_cons_self a rest)
        rw [h1] at h
        have hb := GLSLVersion.le_toNat a
        refine GLSLVersion.toNat_inj _ _ ?_
        show a.toNat = 110
        have h110 : initialProfileVersion.toNat = 110 := rfl
        omega
      show (a :: rest).foldl requireGLSLVersionImpl initialProfileVersion ∈ a :: rest
      rw [h1, show initialProfileVersion = a by rw [ha]; rfl]
      exact List.mem_cons_self _ _
    · exact h1
  · intro t v hle
    unfold requireGLSLVersionImpl
    split <;> [omega; rfl]

/-- Witness for C5 at a concrete request sequence. -/
theorem requireGLSLVersion_monotone_max_witness :
    runRequireSequence [GLSLVersion.v120, GLSLVersion.v450, GLSLVersion.v130]
        = GLSLVersion.v450
    ∧ (runRequireSequence [GLSLVersion.v120, GLSLVersion.v450, GLSLVersion.v130]
          ∈ [GLSLVersion.v120, GLSLVersion.v450, GLSLVersion.v130]
        ∧ ∀ v ∈ [GLSLVersion.v120, GLSLVersion.v450, GLSLVersion.v130],
            v.toNat ≤ (runRequireSequence
              [GLSLVersion.v120, GLSLVersion.v450, GLSLVersion.v130]).toNat) :=
  ⟨by decide, (requireGLSLVersion_monotone_max _ (by decide)).1⟩

/-!
Part 2: source-location tracking of the emission engine, from emit.cpp
lines 394-422 (Emit), 544-656 (emitLineDirective and
emitLineDirectiveAndUpdateSourceLocation), 658-709
(emitLineDirectiveIfNeeded) and 711-720 (advanceToSourceLocation).
-/

/-- Line-directive mode of the compile request (None, Default, Standard, or
the GLSL-specific variant). -/
inductive LineDirectiveMode
  | noneMode | defaultMode | standard | glsl
deriving DecidableEq, Repr

/-- Humane source location: path, 1-based line and column.  The line is an
integer so that the non-positive "invalid" values of the source survive. -/
structure HumaneSourceLoc where
  path : String
  line : Int
  column : Int
deriving DecidableEq, Repr

/-- Observable output of the location-tracking primitives: a literal newline
character, or one re-synchronizing line directive.  The directive records the
location it announces; its textual spelling (quoted path versus small GLSL
source ID) is irrelevant to the tracked claims and is abstracted here. -/
inductive OutEvent
  | newline
  | directive (line : Int) (path : String)
deriving DecidableEq, Repr

/-- State of SharedEmitContext relevant to source-location tracking
(emit.cpp lines 86-99). -/
structure EmitState where
  out : List OutEvent
  loc : HumaneSourceLoc
  nextSourceLocation : HumaneSourceLoc
  needToUpdateSourceLocation : Bool
  isAtStartOfLine : Bool
deriving DecidableEq, Repr

/-- Translation of Emit applied to one newline character (emit.cpp lines
394-422 with emitTextSpan, lines 340-382): the newline is appended, the
tracked line advances and the column resets.  The flushSourceLocationChange
call inside emitTextSpan is a no-op in every context modelled here, because
emitLineDirectiveIfNeeded itself only runs from flushSourceLocationChange,
which clears needToUpdateSourceLocation before calling it (lines 733-744),
and emitTextSpan skips indentation when the span starts with a newline. -/
def emitNewlineChar (st : EmitState) : EmitState :=
  { st with out := st.out ++ [OutEvent.newline],
            loc := { st.loc with line := st.loc.line + 1, column := 1 },
            isAtStartOfLine := true }

/-- The for-loop of emitLineDirectiveIfNeeded that pads with newlines. -/
def emitNewlineChars : Nat → EmitState → EmitState
  | 0, st => st
  | n + 1, st => emitNewlineChars n (emitNewlineChar st)

/-- Translation of emitLineDirective plus
emitLineDirectiveAndUpdateSourceLocation (emit.cpp lines 544-656): one
re-sync directive is written with emitRawText (which bypasses all location
tracking), then the cursor is repositioned at column 1 of the directive's
location. -/
def emitLineDirectiveAndUpdateSourceLocation (st : EmitState)
    (sourceLocation : HumaneSourceLoc) : EmitState :=
  { st with out := st.out ++ [OutEvent.directive sourceLocation.line sourceLocation.path],
            loc := { sourceLocation with column := 1 } }

/-- Translation of emitLineDirectiveIfNeeded (emit.cpp lines 658-709),
including the kSmallLineCount = 3 threshold of line 691. -/
def emitLineDirectiveIfNeeded (mode : LineDirectiveMode) (st : EmitState)
    (sourceLocation : HumaneSourceLoc) : EmitState :=
  match mode with
  | .noneMode => st
  | .defaultMode => st
  | _ =>
    if sourceLocation.line ≤ 0 then st
    else if sourceLocation.path ≠ st.loc.path
        ∨ sourceLocation.line ≠ st.loc.line
        ∨ sourceLocation.column < st.loc.column then
      if sourceLocation.path = st.loc.path
          ∧ st.loc.line < sourceLocation.line
          ∧ sourceLocation.line - st.loc.line ≤ 3 then
        emitNewlineChars (sourceLocation.line - st.loc.line).toNat st
      else
        emitLineDirectiveAndUpdateSourceLocation st sourceLocation
    else st

/-- Translation of advanceToSourceLocation (emit.cpp lines 711-720). -/
def advanceToSourceLocation (st : EmitState)
    (sourceLocation : HumaneSourceLoc) : EmitState :=
  if sourceLocation.line ≤ 0 then st
  else { st with needToUpdateSourceLocation := true,
                 nextSourceLocation := sourceLocation }

lemma emitNewlineChars_out (n : Nat) : ∀ st : EmitState,
    (emitNewlineChars n st).out = st.out ++ List.replicate n OutEvent.newline := by
  induction n with
  | zero => intro st; simp [emitNewlineChars]
  | succ n ih =>
    intro st
    rw [emitNewlineChars, ih]
    simp [emitNewlineChar, List.replicate_succ]

/-- C3: with line directives enabled and a next location on a valid
(positive) line, a forward jump of 1 to 3 lines inside the same file is
closed by writing exactly that many newline characters and no directive,
while a forward jump of 4 or more lines, any backward jump, or a change of
file writes exactly one re-sync directive. -/
theorem emitLineDirectiveIfNeeded_thresholding
    (mode : LineDirectiveMode) (st : EmitState) (sl : HumaneSourceLoc)
    (hm1 : mode ≠ LineDirectiveMode.noneMode)
    (hm2 : mode ≠ LineDirectiveMode.defaultMode)
    (hline : 0 < sl.line) :
    (sl.path = st.loc.path → st.loc.line < sl.line → sl.line ≤ st.loc.line + 3 →
      (emitLineDirectiveIfNeeded mode st sl).out
        = st.out ++ List.replicate (sl.line - st.loc.line).toNat OutEvent.newline)
    ∧ (st.loc.line + 4 ≤ sl.line ∨ sl.line < st.loc.line ∨ sl.path ≠ st.loc.path →
      (emitLineDirectiveIfNeeded mode st sl).out
        = st.out ++ [OutEvent.directive sl.line sl.path]) := by
  have hstep : ∀ h : LineDirectiveMode.standard = mode ∨ LineDirectiveMode.glsl = mode,
      emitLineDirectiveIfNeeded mode st sl
        = (if sl.line ≤ 0 then st
          else if sl.path ≠ st.loc.path ∨ sl.line ≠ st.loc.line
              ∨ sl.column < st.loc.column then
            if sl.path = st.loc.path ∧ st.loc.line < sl.line
                ∧ sl.line - st.loc.line ≤ 3 then
              emitNewlineChars (sl.line - st.loc.line).toNat st
            else emitLineDirectiveAndUpdateSourceLocation st sl
          else st) := by
    rintro (rfl | rfl) <;> rfl
  have hmode : LineDirectiveMode.standard = mode ∨ LineDirectiveMode.glsl = mode := by
    cases mode
    · exact absurd rfl hm1
    · exact absurd rfl hm2
    · exact Or.inl rfl
    · exact Or.inr rfl
  rw [hstep hmode]
  constructor
  · intro hp hlt hle
    rw [if_neg (by omega), if_pos (Or.inr (Or.inl (by omega))),
      if_pos ⟨hp, hlt, by omega⟩]
    exact emitNewlineChars_out _ st
  · intro hcase
    rw [if_neg (by omega)]
    have houter : sl.path ≠ st.loc.path ∨ sl.line ≠ st.loc.line
        ∨ sl.column < st.loc.column := by
      rcases hcase with h | h | h
      · exact Or.inr (Or.inl (by omega))
      · exact Or.inr (Or.inl (by omega))
      · exact Or.inl h
    rw [if_pos houter, if_neg (by
      rintro ⟨hp, hlt, hd⟩
      rcases hcase with h | h | h
      · omega
      · omega
      · exact h hp)]
    rfl

/-- Witness for C3: from cursor (file a, line 5), line 7 of file a is reached
with two newlines and no directive, while line 7 of file b forces a
directive. -/
theorem emitLineDirectiveIfNeeded_thresholding_witness :
    (emitLineDirectiveIfNeeded LineDirectiveMode.standard
        ⟨[], ⟨"a", 5, 1⟩, ⟨"a", 5, 1⟩, false, true⟩ ⟨"a", 7, 1⟩).out
      = [OutEvent.newline, OutEvent.newline]
    ∧ (emitLineDirectiveIfNeeded LineDirectiveMode.standard
        ⟨[], ⟨"a", 5, 1⟩, ⟨"a", 5, 1⟩, false, true⟩ ⟨"b", 7, 1⟩).out
      = [OutEvent.directive 7 "b"] := by
  constructor
  · have h := (emitLineDirectiveIfNeeded_thresholding LineDirectiveMode.standard
      ⟨[], ⟨"a", 5, 1⟩, ⟨"a", 5, 1⟩, false, true⟩ ⟨"a", 7, 1⟩
      (by decide) (by decide) (by decide)).1 rfl (by decide) (by decide)
    simpa using h
  · have h := (emitLineDirectiveIfNeeded_thresholding LineDirectiveMode.standard
      ⟨[], ⟨"a", 5, 1⟩, ⟨"a", 5, 1⟩, false, true⟩ ⟨"b", 7, 1⟩
      (by decide) (by decide) (by decide)).2 (Or.inr (Or.inr (by decide)))
    simpa using h

/-- C10: a source location whose line number is not positive makes both
advanceToSourceLocation and emitLineDirectiveIfNeeded complete no-ops: no
text is written and the whole cursor state (current location, pending
next-location, pending-update flag) is returned unchanged. -/
theorem invalid_location_noop (mode : LineDirectiveMode) (st : EmitState)
    (sl : HumaneSourceLoc) (h : sl.line ≤ 0) :
    advanceToSourceLocation st sl = st
    ∧ emitLineDirectiveIfNeeded mode st sl = st := by
  constructor
  · rw [advanceToSourceLocation, if_pos h]
  · cases mode
    · rfl
    · rfl
    · show (if sl.line ≤ 0 then st else _) = st
      rw [if_pos h]
    · show (if sl.line ≤ 0 then st else _) = st
      rw [if_pos h]

/-- Witness for C10 at a concrete invalid location. -/
theorem invalid_location_noop_witness :
    advanceToSourceLocation ⟨[], ⟨"a", 5, 2⟩, ⟨"a", 5, 2⟩, false, true⟩ ⟨"b", 0, 3⟩
        = ⟨[], ⟨"a", 5, 2⟩, ⟨"a", 5, 2⟩, false, true⟩
    ∧ emitLineDirectiveIfNeeded LineDirectiveMode.glsl
        ⟨[], ⟨"a", 5, 2⟩, ⟨"a", 5, 2⟩, false, true⟩ ⟨"b", 0, 3⟩
        = ⟨[], ⟨"a", 5, 2⟩, ⟨"a", 5, 2⟩, false, true⟩ :=
  invalid_location_noop LineDirectiveMode.glsl _ _ (by decide)

/-!
Part 3: the generics-lowering pipeline, from slang-ir-lower-generics.cpp.
-/

/-- Opcodes relevant to the RTTI specialization step. -/
inductive IROp
  | getAddr | otherOp
deriving DecidableEq, Repr

/-- One use of an RTTI object: the identity and opcode of the using
instruction. -/
structure IRUse where
  userId : Nat
  userOp : IROp
deriving DecidableEq, Repr

/-- One entry of SharedGenericsLoweringContext::mapTypeToRTTIObject: an RTTI
object (its Value side) together with its use list. -/
structure RTTIObject where
  objId : Nat
  uses : List IRUse
deriving DecidableEq, Repr

/-- Translation of specializeRTTIObjectReferences
(slang-ir-lower-generics.cpp lines 20-39).  The local variable id starts at 0
and — exactly as in the source, where no increment of id appears anywhere in
the loop — is threaded through the fold unchanged.  For each RTTI object the
loop walks its uses and, for every user that is a getAddr, replaces that
user's uses with the integer operand built from the current id.  The result
lists, per replaced getAddr user, the unsigned integer that replaces it. -/
def specializeRTTIObjectReferences (mapTypeToRTTIObject : List RTTIObject) :
    List (Nat × Nat) :=
  (mapTypeToRTTIObject.foldl
    (fun (st : List (Nat × Nat) × Nat) rtti =>
      let idOperand := st.2
      (st.1 ++ (rtti.uses.filter (fun u => u.userOp == IROp.getAddr)).map
          (fun u => (u.userId, idOperand)),
        st.2))
    ([], 0)).1

/-- C1 (failing input): on a module whose RTTI map holds two distinct RTTI
objects, each with a single getAddr user, the pass rewrites both users to the
integer 0.  The id counter of specializeRTTIObjectReferences is never
incremented, so distinct objects do not receive distinct sequential IDs,
contradicting both the claim and the function's own comment, which promises
replacement with a sequential ID. -/
theorem specializeRTTIObjectReferences_constant_id :
    specializeRTTIObjectReferences
        [⟨0, [⟨10, IROp.getAddr⟩]⟩, ⟨1, [⟨11, IROp.getAddr⟩]⟩]
      = [(10, 0), (11, 0)]
    ∧ specializeRTTIObjectReferences
        [⟨0, [⟨10, IROp.getAddr⟩]⟩, ⟨1, [⟨11, IROp.getAddr⟩]⟩]
      ≠ [(10, 0), (11, 1)] := by decide

/-- Stages of lowerGenerics (slang-ir-lower-generics.cpp lines 92-167),
including the sub-stages of specializeRTTIObjects. -/
inductive Stage
  | augmentExistentials
  | lowerGenericFunctions
  | lowerGenericType
  | lowerExistentials
  | lowerGenericCalls
  | witnessTableWrappers
  | anyValueMarshalling
  | specializeDispatch
  | specializeAssocTypeLookup
  | specializeRTTIRefs
  | cleanHandleTypes
  | cleanInterfaceTypes
  | constructSSA
  | eliminateDeadCode
deriving DecidableEq, Repr

/-- Errors a stage adds to the shared diagnostic sink, as a function of the
environment err.  Stages with no access to the sink contribute zero:
augmentMakeExistentialInsts, constructSSA and eliminateDeadCode receive only
the module, and the bodies of specializeRTTIObjectReferences,
cleanUpRTTIHandleTypes and cleanUpInterfaceTypes (lines 20-85) never touch
the sink. -/
def stageErrorCount (err : Stage → Nat) : Stage → Nat
  | .lowerGenericFunctions => err .lowerGenericFunctions
  | .lowerGenericType => err .lowerGenericType
  | .lowerExistentials => err .lowerExistentials
  | .lowerGenericCalls => err .lowerGenericCalls
  | .witnessTableWrappers => err .witnessTableWrappers
  | .anyValueMarshalling => err .anyValueMarshalling
  | .specializeDispatch => err .specializeDispatch
  | .specializeAssocTypeLookup => err .specializeAssocTypeLookup
  | _ => 0

/-- Translation of specializeRTTIObjects (slang-ir-lower-generics.cpp lines
92-107): runs dispatch specialization and associated-type-lookup
specialization with an early return after each if the sink holds errors,
then the three clean-up sub-stages unconditionally.  Returns the executed
sub-stages and the final error count. -/
def specializeRTTIObjects (err : Stage → Nat) (cnt : Nat) : List Stage × Nat :=
  let cnt1 := cnt + stageErrorCount err .specializeDispatch
  if cnt1 ≠ 0 then ([Stage.specializeDispatch], cnt1)
  else
    let cnt2 := cnt1 + stageErrorCount err .specializeAssocTypeLookup
    if cnt2 ≠ 0 then ([Stage.specializeDispatch, Stage.specializeAssocTypeLookup], cnt2)
    else
      ([Stage.specializeDispatch, Stage.specializeAssocTypeLookup,
        Stage.specializeRTTIRefs, Stage.cleanHandleTypes,
        Stage.cleanInterfaceTypes], cnt2)

/-- Translation of lowerGenerics (slang-ir-lower-generics.cpp lines 109-167):
the stage sequence with its early returns, starting from a fresh sink.  After
each sink-reporting stage up to any-value marshalling the error count is
checked; specializeRTTIObjects is then invoked, and — with no check of the
sink afterwards, exactly as in the source — constructSSA and
eliminateDeadCode always follow it.  Returns the executed stages in order
and the final error count. -/
def lowerGenerics (err : Stage → Nat) : List Stage × Nat :=
  let ex0 := [Stage.augmentExistentials]
  let cnt1 := stageErrorCount err .lowerGenericFunctions
  let ex1 := ex0 ++ [Stage.lowerGenericFunctions]
  if cnt1 ≠ 0 then (ex1, cnt1)
  else
    let cnt2 := cnt1 + stageErrorCount err .lowerGenericType
    let ex2 := ex1 ++ [Stage.lowerGenericType]
    if cnt2 ≠ 0 then (ex2, cnt2)
    else
      let cnt3 := cnt2 + stageErrorCount err .lowerExistentials
      let ex3 := ex2 ++ [Stage.lowerExistentials]
      if cnt3 ≠ 0 then (ex3, cnt3)
      else
        let cnt4 := cnt3 + stageErrorCount err .lowerGenericCalls
        let ex4 := ex3 ++ [Stage.lowerGenericCalls]
        if cnt4 ≠ 0 then (ex4, cnt4)
        else
          let cnt5 := cnt4 + stageErrorCount err .witnessTableWrappers
          let ex5 := ex4 ++ [Stage.witnessTableWrappers]
          if cnt5 ≠ 0 then (ex5, cnt5)
          else
            let cnt6 := cnt5 + stageErrorCount err .anyValueMarshalling
            let ex6 := ex5 ++ [Stage.anyValueMarshalling]
            if cnt6 ≠ 0 then (ex6, cnt6)
            else
              let spec := specializeRTTIObjects err cnt6
              (ex6 ++ spec.1 ++ [Stage.constructSSA, Stage.eliminateDeadCode],
                spec.2)

/-- The claim C2 as stated, for a given error environment: whenever the
executed-stage list splits at a stage after which the accumulated error count
is nonzero, no later stage was executed. -/
def FirstErrorHaltsAll (err : Stage → Nat) : Prop :=
  ∀ l1 s l2, (lowerGenerics err).1 = l1 ++ s :: l2 →
    ((l1 ++ [s]).map (stageErrorCount err)).sum ≠ 0 → l2 = []

/-- Error environment in which only dispatch specialization reports. -/
def errOnlyDispatch : Stage → Nat :=
  fun s => if s = Stage.specializeDispatch then 1 else 0

/-- C2 (counterexample): when the error count first becomes nonzero during
the dispatch-specialization sub-stage of the specialize step, the pipeline
still executes SSA reconstruction and dead-code elimination afterwards, so
the claim as stated is false. -/
theorem lowerGenerics_not_firstErrorHaltsAll :
    ¬ FirstErrorHaltsAll errOnlyDispatch := by
  intro h
  have hx := h
    [Stage.augmentExistentials, Stage.lowerGenericFunctions,
      Stage.lowerGenericType, Stage.lowerExistentials, Stage.lowerGenericCalls,
      Stage.witnessTableWrappers, Stage.anyValueMarshalling]
    Stage.specializeDispatch
    [Stage.constructSSA, Stage.eliminateDeadCode]
    (by decide) (by decide)
  simp at hx

/-- C2 (amended): every stage other than the final SSA-reconstruction and
dead-code-elimination cleanup executes only while the sink's error count is
still zero (the first nonzero count halts all remaining lowering stages),
and whenever the stages before the specialize step report no errors the
cleanup pair runs, even when an error is reported inside the specialize
step. -/
theorem lowerGenerics_failFast (err : Stage → Nat) :
    (∀ t, t ∈ (lowerGenerics err).1 → t ≠ Stage.constructSSA →
      t ≠ Stage.eliminateDeadCode →
      (((lowerGenerics err).1.takeWhile (fun u => u ≠ t)).map
          (stageErrorCount err)).sum = 0)
    ∧ (err .lowerGenericFunctions = 0 → err .lowerGenericType = 0 →
      err .lowerExistentials = 0 → err .lowerGenericCalls = 0 →
      err .witnessTableWrappers = 0 → err .anyValueMarshalling = 0 →
      Stage.constructSSA ∈ (lowerGenerics err).1
        ∧ Stage.eliminateDeadCode ∈ (lowerGenerics err).1) := by
  by_cases h1 : err .lowerGenericFunctions = 0
  case neg =>
    have hx : lowerGenerics err
        = ([Stage.augmentExistentials, Stage.lowerGenericFunctions],
          err .lowerGenericFunctions) := by
      simp [lowerGenerics, stageErrorCount, h1]
    rw [hx]
    constructor
    · intro t ht hs hd
      fin_cases ht <;> simp [stageErrorCount, List.takeWhile]
    · intro hz; exact absurd hz h1
  case pos =>
  by_cases h2 : err .lowerGenericType = 0
  case neg =>
    have hx : lowerGenerics err
        = ([Stage.augmentExistentials, Stage.lowerGenericFunctions,
            Stage.lowerGenericType], err .lowerGenericType) := by
      simp [lowerGenerics, stageErrorCount, h1, h2]
    rw [hx]
    constructor
    · intro t ht hs hd
      fin_cases ht <;> simp [stageErrorCount, List.takeWhile, h1]
    · intro _ hz; exact absurd hz h2
  case pos =>
  by_cases h3 : err .lowerExistentials = 0
  case neg =>
    have hx : lowerGenerics err
        = ([Stage.augmentExistentials, Stage.lowerGenericFunctions,
            Stage.lowerGenericType, Stage.lowerExistentials],
          err .lowerExistentials) := by
      simp [lowerGenerics, stageErrorCount, h1, h2, h3]
    rw [hx]
    constructor
    · intro t ht hs hd
      fin_cases ht <;> simp [stageErrorCount, List.takeWhile, h1, h2]
    · intro _ _ hz; exact absurd hz h3
  case pos =>
  by_cases h4 : err .lowerGenericCalls = 0
  case neg =>
    have hx : lowerGenerics err
        = ([Stage.augmentExistentials, Stage.lowerGenericFunctions,
            Stage.lowerGenericType, Stage.lowerExistentials,
            Stage.lowerGenericCalls], err .lowerGenericCalls) := by
      simp [lowerGenerics, stageErrorCount, h1, h2, h3, h4]
    rw [hx]
    constructor
    · intro t ht hs hd
      fin_cases ht <;> simp [stageErrorCount, List.takeWhile, h1, h2, h3]
    · intro _ _ _ hz; exact absurd hz h4
  case pos =>
  by_cases h5 : err .witnessTableWrappers = 0
  case neg =>
    have hx : lowerGenerics err
        = ([Stage.augmentExistentials, Stage.lowerGenericFunctions,
            Stage.lowerGenericType, Stage.lowerExistentials,
            Stage.lowerGenericCalls, Stage.witnessTableWrappers],
          err .witnessTableWrappers) := by
      simp [lowerGenerics, stageErrorCount, h1, h2, h3, h4, h5]
    rw [hx]
    constructor
    · intro t ht hs hd
      fin_cases ht <;> simp [stageErrorCount, List.takeWhile, h1, h2, h3, h4]
    · intro _ _ _ _ hz; exact absurd hz h5
  case pos =>
  by_cases h6 : err .anyValueMarshalling = 0
  case neg =>
    have hx : lowerGenerics err
        = ([Stage.augmentExistentials, Stage.lowerGenericFunctions,
            Stage.lowerGenericType, Stage.lowerExistentials,
            Stage.lowerGenericCalls, Stage.witnessTableWrappers,
            Stage.anyValueMarshalling], err .anyValueMarshalling) := by
      simp [lowerGenerics, stageErrorCount, h1, h2, h3, h4, h5, h6]
    rw [hx]
    constructor
    · intro t ht hs hd
      fin_cases ht <;> simp [stageErrorCount, List.takeWhile, h1, h2, h3, h4, h5]
    · intro _ _ _ _ _ hz; exact absurd hz h6
  case pos =>
  by_cases h7 : err .specializeDispatch = 0
  case neg =>
    have hx : lowerGenerics err
        = ([Stage.augmentExistentials, Stage.lowerGenericFunctions,
            Stage.lowerGenericType, Stage.lowerExistentials,
            Stage.lowerGenericCalls, Stage.witnessTableWrappers,
            Stage.anyValueMarshalling, Stage.specializeDispatch,
            Stage.constructSSA, Stage.eliminateDeadCode],
          err .specializeDispatch) := by
      simp [lowerGenerics, specializeRTTIObjects, stageErrorCount,
        h1, h2, h3, h4, h5, h6, h7]
    rw [hx]
    constructor
    · intro t ht hs hd
      fin_cases ht <;>
        simp_all [stageErrorCount, List.takeWhile, h1, h2, h3, h4, h5, h6]
    · intro _ _ _ _ _ _
      constructor <;> simp
  case pos =>
  by_cases h8 : err .specializeAssocTypeLookup = 0
  case neg =>
    have hx : lowerGenerics err
        = ([Stage.augmentExistentials, Stage.lowerGenericFunctions,
            Stage.lowerGenericType, Stage.lowerExistentials,
            Stage.lowerGenericCalls, Stage.witnessTableWrappers,
            Stage.anyValueMarshalling, Stage.specializeDispatch,
            Stage.specializeAssocTypeLookup,
            Stage.constructSSA, Stage.eliminateDeadCode],
          err .specializeAssocTypeLookup) := by
      simp [lowerGenerics, specializeRTTIObjects, stageErrorCount,
        h1, h2, h3, h4, h5, h6, h7, h8]
    rw [hx]
    constructor
    · intro t ht hs hd
      fin_cases ht <;>
        simp_all [stageErrorCount, List.takeWhile, h1, h2, h3, h4, h5, h6, h7]
    · intro _ _ _ _ _ _
      constructor <;> simp
  case pos =>
  have hx : lowerGenerics err
      = ([Stage.augmentExistentials, Stage.lowerGenericFunctions,
          Stage.lowerGenericType, Stage.lowerExistentials,
          Stage.lowerGenericCalls, Stage.witnessTableWrappers,
          Stage.anyValueMarshalling, Stage.specializeDispatch,
          Stage.specializeAssocTypeLookup, Stage.specializeRTTIRefs,
          Stage.cleanHandleTypes, Stage.cleanInterfaceTypes,
          Stage.constructSSA, Stage.eliminateDeadCode], 0) := by
    simp [lowerGenerics, specializeRTTIObjects, stageErrorCount,
      h1, h2, h3, h4, h5, h6, h7, h8]
  rw [hx]
  constructor
  · intro t ht hs hd
    fin_cases ht <;>
      simp_all [stageErrorCount, List.takeWhile, h1, h2, h3, h4, h5, h6, h7, h8]
  · intro _ _ _ _ _ _
    constructor <;> simp

/-- Witness for the amended C2 at the environment where only dispatch
specialization errors: the specialize stage itself ran with a clean sink,
and the SSA cleanup still runs. -/
theorem lowerGenerics_failFast_witness :
    ((((lowerGenerics errOnlyDispatch).1.takeWhile
          (fun u => u ≠ Stage.specializeDispatch)).map
        (stageErrorCount errOnlyDispatch)).sum = 0)
    ∧ Stage.constructSSA ∈ (lowerGenerics errOnlyDispatch).1
    ∧ Stage.eliminateDeadCode ∈ (lowerGenerics errOnlyDispatch).1 :=
  ⟨(lowerGenerics_failFast errOnlyDispatch).1 Stage.specializeDispatch
      (by decide) (by decide) (by decide),
    (lowerGenerics_failFast errOnlyDispatch).2
      (by decide) (by decide) (by decide) (by decide) (by decide) (by decide)⟩

/-!
Part 4: the type-legalization cache.  The header legalize-types.h (lines
488-511) declares the per-run cache Dictionary mapTypeToLegalType inside
IRTypeLegalizationContext and the entry point legalizeType; the
implementation file is not among the surveyed sources, so the memoized
structural classification is modelled from the spec (section 4.2).
-/

/-- IR type, as needed for legalization: scalars and other basic types,
opaque resource/sampler handles, named struct references (the field lists
live in an environment, mirroring declaration references), and pointer-like
wrappers. -/
inductive IRType
  | base (k : Nat)
  | resource (k : Nat)
  | structRef (name : Nat)
  | ptrLike (inner : IRType)
deriving DecidableEq, Repr

/-- Modelled from the spec: the LegalType tagged variant of section 3
(simple, implicitDeref, tuple, pair).  Every node carries the allocation
identifier it received when it was built, so that pointer identity — which
the claim is about — is observable in the embedding. -/
inductive LegalType
  | simple (t : IRType) (allocId : Nat)
  | implicitDeref (inner : LegalType) (allocId : Nat)
  | tupleOf (ordinaryElems : List LegalType) (allocId : Nat)
  | pairOf (ordinarySide : LegalType) (specialSide : LegalType) (allocId : Nat)

/-- State of one legalization run: the per-type cache mapTypeToLegalType of
IRTypeLegalizationContext (legalize-types.h line 496) and the next fresh
allocation identifier. -/
structure LegalCtx where
  mapTypeToLegalType : List (IRType × LegalType)
  nextAllocId : Nat

/-- Lookup in the per-type cache by original type identity. -/
def lookupLegal : List (IRType × LegalType) → IRType → Option LegalType
  | [], _ => none
  | (k, v) :: rest, t => if k = t then some v else lookupLegal rest t

/-- Allocation of a fresh tree node identifier. -/
def freshAllocId (ctx : LegalCtx) : Nat × LegalCtx :=
  (ctx.nextAllocId, { ctx with nextAllocId := ctx.nextAllocId + 1 })

/-- Caching step of legalizeType: a freshly computed result is recorded in
mapTypeToLegalType under the original type before being returned. -/
def insertLegalResult (t : IRType) :
    Option (LegalType × LegalCtx) → Option (LegalType × LegalCtx)
  | none => none
  | some (lt, ctx) =>
      some (lt, { ctx with mapTypeToLegalType := (t, lt) :: ctx.mapTypeToLegalType })

/-- Recursive structural classification step, with the recursive call
abstracted as recur so that legalizeType below owns the recursion.  Basic and
opaque types stay simple; a pointer-like wrapper of an unchanged pointee
stays simple and otherwise collapses to an implicitDeref of the legalized
pointee; a struct whose fields are all ordinary stays simple, while a mixed
struct becomes a pair of an ordinary-side tuple and a special-side tuple.
The predicate special says which types cannot appear inside a legal
aggregate; structFields gives each struct's field types. -/
def legalizeStep (special : IRType → Bool)
    (structFields : List (Nat × List IRType))
    (recur : LegalCtx → IRType → Option (LegalType × LegalCtx))
    (ctx : LegalCtx) (t : IRType) : Option (LegalType × LegalCtx) :=
  match t with
  | .base _ =>
      let (i, ctx1) := freshAllocId ctx
      some (.simple t i, ctx1)
  | .resource _ =>
      let (i, ctx1) := freshAllocId ctx
      some (.simple t i, ctx1)
  | .ptrLike inner =>
      match recur ctx inner with
      | none => none
      | some (.simple _ _, ctx1) =>
          let (i, ctx2) := freshAllocId ctx1
          some (.simple t i, ctx2)
      | some (li, ctx1) =>
          let (i, ctx2) := freshAllocId ctx1
          some (.implicitDeref li i, ctx2)
  | .structRef n =>
      let fts := (structFields.lookup n).getD []
      let folded := fts.foldl
        (fun (acc : Option (List LegalType × List LegalType × LegalCtx)) ft =>
          match acc with
          | none => none
          | some (ordAcc, specAcc, c) =>
              match recur c ft with
              | none => none
              | some (lt, c1) =>
                  if special ft then some (ordAcc, specAcc ++ [lt], c1)
                  else some (ordAcc ++ [lt], specAcc, c1))
        (some ([], [], ctx))
      match folded with
      | none => none
      | some (ordAcc, specAcc, c) =>
          if specAcc.isEmpty then
            let (i, c1) := freshAllocId c
            some (.simple t i, c1)
          else
            let (i1, c1) := freshAllocId c
            let (i2, c2) := freshAllocId c1
            let (i3, c3) := freshAllocId c2
            some (.pairOf (.tupleOf ordAcc i1) (.tupleOf specAcc i2) i3, c3)

/-- Modelled from the spec (section 4.2): memoized recursive structural
classification.  A type found in the per-type cache is returned as is;
otherwise its replacement tree is built by legalizeStep and recorded in the
cache under the original type.  The fuel argument bounds the recursion
depth. -/
def legalizeType (special : IRType → Bool)
    (structFields : List (Nat × List IRType)) :
    Nat → LegalCtx → IRType → Option (LegalType × LegalCtx)
  | 0, _, _ => none
  | fuel + 1, ctx, t =>
    match lookupLegal ctx.mapTypeToLegalType t with
    | some lt => some (lt, ctx)
    | none =>
      insertLegalResult t
        (legalizeStep special structFields
          (fun c u => legalizeType special structFields fuel c u) ctx t)

lemma insertLegalResult_lookup {t : IRType} {lt1 : LegalType} {ctx1 : LegalCtx}
    {o : Option (LegalType × LegalCtx)}
    (h : insertLegalResult t o = some (lt1, ctx1)) :
    lookupLegal ctx1.mapTypeToLegalType t = some lt1 := by
  cases o with
  | none => exact absurd h (by simp [insertLegalResult])
  | some p =>
    obtain ⟨lt, c⟩ := p
    rw [insertLegalResult] at h
    cases h
    simp [lookupLegal]

/-- C4: legalizing the same IR type a second time inside one run returns
exactly the tree the first call stored in the per-type cache — the same
allocation identifiers, taken from mapTypeToLegalType, with the context
(including the fresh-identifier counter) unchanged, so nothing is rebuilt. -/
theorem legalizeType_idempotent_cached
    (fuel fuel2 : Nat) (special : IRType → Bool)
    (structFields : List (Nat × List IRType)) (ctx ctx1 : LegalCtx)
    (t : IRType) (lt1 : LegalType)
    (h : legalizeType special structFields fuel ctx t = some (lt1, ctx1)) :
    legalizeType special structFields (fuel2 + 1) ctx1 t = some (lt1, ctx1)
    ∧ lookupLegal ctx1.mapTypeToLegalType t = some lt1 := by
  have hmem : lookupLegal ctx1.mapTypeToLegalType t = some lt1 := by
    cases fuel with
    | zero =>
      rw [legalizeType.eq_def] at h
      simp at h
    | succ fuel =>
      rw [legalizeType.eq_def] at h
      simp only [] at h
      cases hlk : lookupLegal ctx.mapTypeToLegalType t with
      | some lt =>
        rw [hlk] at h
        simp at h
        obtain ⟨rfl, rfl⟩ := h
        exact hlk
      | none =>
        rw [hlk] at h
        exact insertLegalResult_lookup h
  refine ⟨?_, hmem⟩
  rw [legalizeType.eq_def]
  simp only [hmem]

/-- Specialization predicate used by the C4 witness: opaque resource types
are special, everything else ordinary. -/
def specialResource : IRType → Bool
  | .resource _ => true
  | _ => false

/-- Struct table used by the C4 witness: struct 0 with one ordinary and one
special field. -/
def witnessStructFields : List (Nat × List IRType) :=
  [(0, [IRType.base 0, IRType.resource 0])]

/-- Witness for C4: a mixed struct is legalized once, and the second call
returns the identical cached tree with an unchanged context. -/
theorem legalizeType_idempotent_cached_witness :
    legalizeType specialResource witnessStructFields 3 ⟨[], 0⟩
        (IRType.structRef 0)
      = some (LegalType.pairOf
          (LegalType.tupleOf [LegalType.simple (IRType.base 0) 0] 2)
          (LegalType.tupleOf [LegalType.simple (IRType.resource 0) 1] 3) 4,
        ⟨[(IRType.structRef 0,
            LegalType.pairOf
              (LegalType.tupleOf [LegalType.simple (IRType.base 0) 0] 2)
              (LegalType.tupleOf [LegalType.simple (IRType.resource 0) 1] 3) 4),
          (IRType.resource 0, LegalType.simple (IRType.resource 0) 1),
          (IRType.base 0, LegalType.simple (IRType.base 0) 0)], 5⟩)
    ∧ legalizeType specialResource witnessStructFields 9
        ⟨[(IRType.structRef 0,
            LegalType.pairOf
              (LegalType.tupleOf [LegalType.simple (IRType.base 0) 0] 2)
              (LegalType.tupleOf [LegalType.simple (IRType.resource 0) 1] 3) 4),
          (IRType.resource 0, LegalType.simple (IRType.resource 0) 1),
          (IRType.base 0, LegalType.simple (IRType.base 0) 0)], 5⟩
        (IRType.structRef 0)
      = some (LegalType.pairOf
          (LegalType.tupleOf [LegalType.simple (IRType.base 0) 0] 2)
          (LegalType.tupleOf [LegalType.simple (IRType.resource 0) 1] 3) 4,
        ⟨[(IRType.structRef 0,
            LegalType.pairOf
              (LegalType.tupleOf [LegalType.simple (IRType.base 0) 0] 2)
              (LegalType.tupleOf [LegalType.simple (IRType.resource 0) 1] 3) 4),
          (IRType.resource 0, LegalType.simple (IRType.resource 0) 1),
          (IRType.base 0, LegalType.simple (IRType.base 0) 0)], 5⟩) :=
  ⟨rfl,
    (legalizeType_idempotent_cached 3 8 specialResource witnessStructFields
      ⟨[], 0⟩ _ (IRType.structRef 0) _ rfl).1⟩

/-!
Part 5: switch emission, from the kIROp_switch case of emitIRStmtsForBlocks
(emit.cpp lines 3808-3948).  Case values are identified by the integers
emitted for them and target blocks by block identities.
-/

/-- The case-grouping loops of the switch case (emit.cpp lines 3852-3926):
curVs holds the case values already emitted for the group being built (the
group for target block curLabel); a next case with the same label joins the
group (the inner for-loop of lines 3873-3888), a different label closes the
group and starts a new one. -/
def groupCasesAux (curVs : List Nat) (curLabel : Nat) :
    List (Nat × Nat) → List (List Nat × Nat)
  | [] => [(curVs, curLabel)]
  | (v, l) :: rest =>
      if l = curLabel then groupCasesAux (curVs ++ [v]) curLabel rest
      else (curVs, curLabel) :: groupCasesAux [v] l rest

/-- Grouping of a whole case table into runs of consecutive equal labels,
each emitted as consecutive case labels over a single body. -/
def groupCases : List (Nat × Nat) → List (List Nat × Nat)
  | [] => []
  | (v, l) :: rest => groupCasesAux [v] l rest

/-- Textual shape of one emitted switch statement: per group the case values,
whether a default label was folded into the group's label list, and the
group's target block (whose region is emitted once as the single body); and
whether a separate trailing default body was emitted. -/
structure SwitchEmit where
  groups : List (List Nat × Bool × Nat)
  trailingDefault : Bool
deriving DecidableEq, Repr

/-- Translation of the kIROp_switch case (emit.cpp lines 3808-3948): cases
are grouped by consecutive shared labels; a group whose label equals the
default label receives a folded default mark (lines 3893-3897); a separate
default body is emitted at the end only when no folding happened and the
default label differs from the break label (lines 3838-3844 and
3931-3942). -/
def emitSwitch (cases : List (Nat × Nat)) (defaultLabel breakLabel : Nat) :
    SwitchEmit :=
  let gs := (groupCases cases).map
    (fun g => (g.1, decide (g.2 = defaultLabel), g.2))
  let defaultLabelHandled :=
    decide (defaultLabel = breakLabel) || gs.any (fun g => g.2.1)
  ⟨gs, !defaultLabelHandled⟩

lemma groupCasesAux_join : ∀ (rest : List (Nat × Nat)) (curVs : List Nat)
    (curLabel : Nat),
    ((groupCasesAux curVs curLabel rest).map
      (fun g => g.1.map (fun v => (v, g.2)))).flatten
      = curVs.map (fun v => (v, curLabel)) ++ rest := by
  intro rest
  induction rest with
  | nil => intro curVs curLabel; simp [groupCasesAux]
  | cons p rest ih =>
    intro curVs curLabel
    obtain ⟨v, l⟩ := p
    rw [groupCasesAux]
    split
    · rename_i heq
      subst heq
      rw [ih]
      simp
    · simp only [List.map_cons, List.flatten_cons, ih]
      simp

lemma groupCasesAux_head : ∀ (rest : List (Nat × Nat)) (curVs : List Nat)
    (curLabel : Nat),
    ∃ vs gs, groupCasesAux curVs curLabel rest = (vs, curLabel) :: gs := by
  intro rest
  induction rest with
  | nil => intro curVs curLabel; exact ⟨curVs, [], rfl⟩
  | cons p rest ih =>
    intro curVs curLabel
    obtain ⟨v, l⟩ := p
    rw [groupCasesAux]
    split
    · exact ih _ _
    · exact ⟨curVs, groupCasesAux [v] l rest, rfl⟩

lemma groupCasesAux_chain : ∀ (rest : List (Nat × Nat)) (curVs : List Nat)
    (curLabel : Nat),
    List.Chain' (fun g1 g2 : List Nat × Nat => g1.2 ≠ g2.2)
      (groupCasesAux curVs curLabel rest) := by
  intro rest
  induction rest with
  | nil => intro curVs curLabel; simp [groupCasesAux]
  | cons p rest ih =>
    intro curVs curLabel
    obtain ⟨v, l⟩ := p
    rw [groupCasesAux]
    split
    · exact ih _ _
    · rename_i hne
      refine List.chain'_cons'.mpr ⟨?_, ih _ _⟩
      intro g2 hg2
      obtain ⟨vs, gs, hgrp⟩ := groupCasesAux_head rest [v] l
      rw [hgrp] at hg2
      simp at hg2
      subst hg2
      exact fun h => hne h.symm

lemma groupCasesAux_nonempty : ∀ (rest : List (Nat × Nat)) (curVs : List Nat)
    (curLabel : Nat), curVs ≠ [] →
    ∀ g ∈ groupCasesAux curVs curLabel rest, g.1 ≠ [] := by
  intro rest
  induction rest with
  | nil =>
    intro curVs curLabel hne g hg
    simp [groupCasesAux] at hg
    rw [hg]
    exact hne
  | cons p rest ih =>
    intro curVs curLabel hne g hg
    obtain ⟨v, l⟩ := p
    rw [groupCasesAux] at hg
    split at hg
    · exact ih _ _ (by simp) g hg
    · rcases List.mem_cons.mp hg with rfl | hg
      · exact hne
      · exact ih _ _ (by simp) g hg

lemma groupCases_join (cs : List (Nat × Nat)) :
    ((groupCases cs).map (fun g => g.1.map (fun v => (v, g.2)))).flatten = cs := by
  cases cs with
  | nil => rfl
  | cons p rest =>
    obtain ⟨v, l⟩ := p
    rw [groupCases, groupCasesAux_join]
    rfl

lemma groupCases_chain (cs : List (Nat × Nat)) :
    List.Chain' (fun g1 g2 : List Nat × Nat => g1.2 ≠ g2.2) (groupCases cs) := by
  cases cs with
  | nil => simp [groupCases]
  | cons p rest =>
    obtain ⟨v, l⟩ := p
    exact groupCasesAux_chain rest [v] l

lemma groupCases_nonempty (cs : List (Nat × Nat)) :
    ∀ g ∈ groupCases cs, g.1 ≠ [] := by
  cases cs with
  | nil => simp [groupCases]
  | cons p rest =>
    obtain ⟨v, l⟩ := p
    exact groupCasesAux_nonempty rest [v] l (by simp)

/-- C6: in one emitted switch statement, consecutive cases sharing a target
block land in a single group of consecutive case labels above a single body
(the groups concatenate back to exactly the original case table, adjacent
groups have distinct target blocks, and no group is empty); a group whose
target block is the default target carries the folded default label, and
whenever any group folds the default no separate trailing default body is
emitted. -/
theorem emitSwitch_groups_cases (cases : List (Nat × Nat))
    (defaultLabel breakLabel : Nat) :
    (((emitSwitch cases defaultLabel breakLabel).groups.map
        (fun g => g.1.map (fun v => (v, g.2.2)))).flatten = cases)
    ∧ List.Chain' (fun g1 g2 : List Nat × Bool × Nat => g1.2.2 ≠ g2.2.2)
        (emitSwitch cases defaultLabel breakLabel).groups
    ∧ (∀ g ∈ (emitSwitch cases defaultLabel breakLabel).groups,
        g.1 ≠ [] ∧ (g.2.1 = true ↔ g.2.2 = defaultLabel))
    ∧ (∀ g ∈ (emitSwitch cases defaultLabel breakLabel).groups,
        g.2.2 = defaultLabel →
          (emitSwitch cases defaultLabel breakLabel).trailingDefault = false) := by
  refine ⟨?_, ?_, ?_, ?_⟩
  · rw [show ((emitSwitch cases defaultLabel breakLabel).groups.map
        (fun g => g.1.map (fun v => (v, g.2.2))))
        = ((groupCases cases).map (fun g => g.1.map (fun v => (v, g.2)))) by
      simp [emitSwitch]]
    exact groupCases_join cases
  · have h := groupCases_chain cases
    simp only [emitSwitch]
    exact List.chain'_map_of_chain' _ (fun a b hab => by simpa using hab) h
  · intro g hg
    simp only [emitSwitch, List.mem_map] at hg
    obtain ⟨g0, hg0, rfl⟩ := hg
    refine ⟨groupCases_nonempty cases g0 hg0, ?_⟩
    simp
  · intro g hg hdef
    simp only [emitSwitch, List.mem_map] at hg
    obtain ⟨g0, hg0, rfl⟩ := hg
    have hany : ((groupCases cases).map
        (fun g => (g.1, decide (g.2 = defaultLabel), g.2))).any
          (fun g => g.2.1) = true := by
      refine List.any_eq_true.mpr ⟨_, List.mem_map.mpr ⟨g0, hg0, rfl⟩, ?_⟩
      simpa using hdef
    simp [emitSwitch, hany]

/-- Witness for C6 at the spec's scenario: three cases where the second and
third share a target that is also the default target. -/
theorem emitSwitch_groups_cases_witness :
    emitSwitch [(1, 10), (2, 20), (3, 20)] 20 99
      = ⟨[([1], false, 10), ([2, 3], true, 20)], false⟩
    ∧ (((emitSwitch [(1, 10), (2, 20), (3, 20)] 20 99).groups.map
        (fun g => g.1.map (fun v => (v, g.2.2)))).flatten
      = [(1, 10), (2, 20), (3, 20)])
    ∧ (emitSwitch [(1, 10), (2, 20), (3, 20)] 20 99).trailingDefault = false :=
  ⟨by decide,
    (emitSwitch_groups_cases [(1, 10), (2, 20), (3, 20)] 20 99).1,
    (emitSwitch_groups_cases [(1, 10), (2, 20), (3, 20)] 20 99).2.2.2
      ([2, 3], true, 20) (by decide) (by decide)⟩

/-!
Part 6: at-most-once struct declaration emission, from ensureStructDecl
(emit.cpp lines 5290-5347) with emitIRUsedType / emitIRUsedDeclRef (lines
5349-5407) as the recursion through field types.  Struct identities are
their mangled names.
-/

/-- Static description of the struct declarations reachable in one module:
for each mangled struct name its (non-static) field types that are
themselves struct declaration references, and which names denote built-in
types (whose own declaration is skipped, emit.cpp line 5316, though their
fields are still walked first). -/
structure StructEnv where
  fieldsAL : List (String × List String)
  builtins : List String

/-- First-match lookup of a struct's field list. -/
def lookupFields : List (String × List String) → String → List String
  | [], _ => []
  | (k, v) :: rest, s => if k = s then v else lookupFields rest s

/-- Struct field types of a mangled name (empty for unknown names). -/
def fieldsOf (env : StructEnv) (s : String) : List String :=
  lookupFields env.fieldsAL s

/-- The emit-session state relevant here: the irDeclsVisited set of
SharedEmitContext (emit.cpp line 124) and the struct declarations written to
the output, in order. -/
structure EmitDeclState where
  irDeclsVisited : List String
  out : List String
deriving DecidableEq, Repr

/-- Translation of ensureStructDecl (emit.cpp lines 5290-5347): an
already-visited mangled name returns immediately; otherwise the name is
added to irDeclsVisited, the field types are ensured first (depth-first,
via emitIRUsedType), and then the declaration itself is written — unless the
declaration is built-in on the target.  The fuel argument bounds the
recursion depth. -/
def ensureStructDecl : Nat → StructEnv → String → EmitDeclState → EmitDeclState
  | 0, _, _, st => st
  | fuel + 1, env, mangledName, st =>
    if mangledName ∈ st.irDeclsVisited then st
    else
      let st2 := (fieldsOf env mangledName).foldl
        (fun s f => ensureStructDecl fuel env f s)
        ⟨mangledName :: st.irDeclsVisited, st.out⟩
      if mangledName ∈ env.builtins then st2
      else ⟨st2.irDeclsVisited, st2.out ++ [mangledName]⟩

/-- One emit session: the struct references encountered while walking the
module are ensured in order, starting from empty already-emitted sets. -/
def emitSession (fuel : Nat) (env : StructEnv) (refs : List String) :
    EmitDeclState :=
  refs.foldl (fun st n => ensureStructDecl fuel env n st) ⟨[], []⟩

/-- Depth-first declaration order: wherever a struct's declaration appears
in the output, every field type of it that has a declaration of its own
(is not built-in) was declared earlier. -/
def FieldOrdered (env : StructEnv) (out : List String) : Prop :=
  ∀ l1 s l2, out = l1 ++ s :: l2 →
    ∀ f ∈ fieldsOf env s, f ∉ env.builtins → f ∈ l1

/-- Acyclicity of the by-value field graph, witnessed by a rank function
(a struct cannot contain itself by value, so such a rank always exists for
real modules). -/
def RankOk (env : StructEnv) (rank : String → Nat) : Prop :=
  ∀ p ∈ env.fieldsAL, ∀ f ∈ p.2, rank f < rank p.1

/-- Invariant carried through ensureStructDecl: the output has no duplicate
declarations, everything declared is marked visited, every visited
non-built-in name is either already declared or one of the in-progress
ancestors A, and the output is depth-first ordered. -/
def GoodSt (env : StructEnv) (A : List String) (st : EmitDeclState) : Prop :=
  st.out.Nodup
  ∧ (∀ v ∈ st.out, v ∈ st.irDeclsVisited)
  ∧ (∀ v ∈ st.irDeclsVisited, v ∉ env.builtins → v ∈ st.out ∨ v ∈ A)
  ∧ FieldOrdered env st.out

/-- What one ensureStructDecl call guarantees: the invariant is preserved,
the call only appends previously-unvisited declarations, and the visited set
only grows. -/
def EnsureConcl (env : StructEnv) (A : List String)
    (st st' : EmitDeclState) : Prop :=
  GoodSt env A st'
  ∧ (∃ nw, st'.out = st.out ++ nw ∧ ∀ v ∈ nw, v ∉ st.irDeclsVisited)
  ∧ (∀ v ∈ st.irDeclsVisited, v ∈ st'.irDeclsVisited)

lemma EnsureConcl.refl {env : StructEnv} {A : List String}
    {st : EmitDeclState} (hg : GoodSt env A st) : EnsureConcl env A st st :=
  ⟨hg, ⟨[], by simp, by simp⟩, fun _ hv => hv⟩

lemma EnsureConcl.trans {env : StructEnv} {A : List String}
    {st st1 st2 : EmitDeclState} (h1 : EnsureConcl env A st st1)
    (h2 : EnsureConcl env A st1 st2) : EnsureConcl env A st st2 := by
  obtain ⟨_hg1, ⟨n1, ho1, hn1⟩, hm1⟩ := h1
  obtain ⟨hg2, ⟨n2, ho2, hn2⟩, hm2⟩ := h2
  refine ⟨hg2, ⟨n1 ++ n2, by rw [ho2, ho1, List.append_assoc], ?_⟩,
    fun v hv => hm2 v (hm1 v hv)⟩
  intro v hv
  rcases List.mem_append.mp hv with hv | hv
  · exact hn1 v hv
  · exact fun hst => hn2 v hv (hm1 v hst)

lemma lookupFields_mem : ∀ (al : List (String × List String)) (s f : String),
    f ∈ lookupFields al s → ∃ v, (s, v) ∈ al ∧ f ∈ v := by
  intro al
  induction al with
  | nil => intro s f h; simp [lookupFields] at h
  | cons p rest ih =>
    intro s f h
    obtain ⟨k, v⟩ := p
    rw [lookupFields] at h
    by_cases hk : k = s
    · rw [if_pos hk] at h
      subst hk
      exact ⟨v, List.mem_cons_self _ _, h⟩
    · rw [if_neg hk] at h
      obtain ⟨w, hw, hfw⟩ := ih s f h
      exact ⟨w, List.mem_cons_of_mem _ hw, hfw⟩

lemma fieldsOf_rank {env : StructEnv} {rank : String → Nat}
    (henv : RankOk env rank) {s f : String} (hf : f ∈ fieldsOf env s) :
    rank f < rank s := by
  obtain ⟨v, hv, hfv⟩ := lookupFields_mem env.fieldsAL s f hf
  exact henv (s, v) hv f hfv

lemma ensureStructDecl_succ (fuel : Nat) (env : StructEnv) (name : String)
    (st : EmitDeclState) :
    ensureStructDecl (fuel + 1) env name st
      = if name ∈ st.irDeclsVisited then st
        else if name ∈ env.builtins then
          (fieldsOf env name).foldl (fun s f => ensureStructDecl fuel env f s)
            ⟨name :: st.irDeclsVisited, st.out⟩
        else
          ⟨((fieldsOf env name).foldl (fun s f => ensureStructDecl fuel env f s)
              ⟨name :: st.irDeclsVisited, st.out⟩).irDeclsVisited,
            ((fieldsOf env name).foldl (fun s f => ensureStructDecl fuel env f s)
              ⟨name :: st.irDeclsVisited, st.out⟩).out ++ [name]⟩ := rfl

lemma append_singleton_split {α : Type} {xs l1 l2 : List α} {s a : α}
    (h : xs ++ [a] = l1 ++ s :: l2) :
    (l1 = xs ∧ s = a ∧ l2 = []) ∨ ∃ l2', xs = l1 ++ s :: l2' ∧ l2 = l2' ++ [a] := by
  rcases List.eq_nil_or_concat l2 with rfl | ⟨l2', b, rfl⟩
  · left
    have h2 : xs ++ [a] = l1 ++ [s] := h
    have := List.append_inj' h2 (by simp)
    exact ⟨this.1.symm, by simpa using this.2.symm, rfl⟩
  · right
    have h2 : xs ++ [a] = (l1 ++ s :: l2') ++ [b] := by
      rw [h]; simp
    have := List.append_inj' h2 (by simp)
    have hab : a = b := by simpa using this.2
    exact ⟨l2', this.1, by rw [hab, List.concat_eq_append]⟩

lemma ensureStructDecl_fold_spec (env : StructEnv) (rank : String → Nat)
    (henv : RankOk env rank) (fuel : Nat)
    (IH : ∀ name A st, rank name < fuel → (∀ a ∈ A, rank name < rank a) →
      GoodSt env A st →
      EnsureConcl env A st (ensureStructDecl fuel env name st)
      ∧ name ∈ (ensureStructDecl fuel env name st).irDeclsVisited) :
    ∀ (fs : List String) (A : List String) (st : EmitDeclState),
      (∀ f ∈ fs, rank f < fuel) →
      (∀ f ∈ fs, ∀ a ∈ A, rank f < rank a) →
      GoodSt env A st →
      EnsureConcl env A st
        (fs.foldl (fun s f => ensureStructDecl fuel env f s) st)
      ∧ ∀ f ∈ fs,
          f ∈ (fs.foldl (fun s f => ensureStructDecl fuel env f s) st).irDeclsVisited := by
  intro fs
  induction fs with
  | nil =>
    intro A st _ _ hg
    exact ⟨EnsureConcl.refl hg, by simp⟩
  | cons f fs ih =>
    intro A st hrk hA hg
    have h1 := IH f A st (hrk f (List.mem_cons_self _ _))
      (hA f (List.mem_cons_self _ _)) hg
    obtain ⟨hc1, hfvis⟩ := h1
    have h2 := ih A (ensureStructDecl fuel env f st)
      (fun g hgm => hrk g (List.mem_cons_of_mem _ hgm))
      (fun g hgm => hA g (List.mem_cons_of_mem _ hgm)) hc1.1
    obtain ⟨hc2, hall⟩ := h2
    rw [List.foldl_cons]
    refine ⟨EnsureConcl.trans hc1 hc2, ?_⟩
    intro g hgm
    rcases List.mem_cons.mp hgm with rfl | hgm
    · exact hc2.2.2 g hfvis
    · exact hall g hgm

lemma ensureStructDecl_spec (env : StructEnv) (rank : String → Nat)
    (henv : RankOk env rank) :
    ∀ (fuel : Nat) (name : String) (A : List String) (st : EmitDeclState),
      rank name < fuel →
      (∀ a ∈ A, rank name < rank a) →
      GoodSt env A st →
      EnsureConcl env A st (ensureStructDecl fuel env name st)
      ∧ name ∈ (ensureStructDecl fuel env name st).irDeclsVisited := by
  intro fuel
  induction fuel with
  | zero => intro name A st hlt; omega
  | succ fuel ihfuel =>
    intro name A st _hlt hA hg
    rw [ensureStructDecl_succ]
    by_cases hv : name ∈ st.irDeclsVisited
    · rw [if_pos hv]
      exact ⟨EnsureConcl.refl hg, hv⟩
    · rw [if_neg hv]
      obtain ⟨hnd, hov, hvis, hord⟩ := hg
      have hg1 : GoodSt env (name :: A) ⟨name :: st.irDeclsVisited, st.out⟩ := by
        refine ⟨hnd, ?_, ?_, hord⟩
        · exact fun v hvo => List.mem_cons_of_mem _ (hov v hvo)
        · intro v hvv hvb
          rcases List.mem_cons.mp hvv with rfl | hvv
          · exact Or.inr (List.mem_cons_self _ _)
          · rcases hvis v hvv hvb with h | h
            · exact Or.inl h
            · exact Or.inr (List.mem_cons_of_mem _ h)
      have hfold := ensureStructDecl_fold_spec env rank henv fuel ihfuel
        (fieldsOf env name) (name :: A) ⟨name :: st.irDeclsVisited, st.out⟩
        (fun f hf => lt_of_lt_of_le (fieldsOf_rank henv hf) (by omega))
        (fun f hf a ha => by
          rcases List.mem_cons.mp ha with rfl | ha
          · exact fieldsOf_rank henv hf
          · exact lt_trans (fieldsOf_rank henv hf) (hA a ha))
        hg1
      obtain ⟨⟨hg2, ⟨nw2, hout2, hnw2⟩, hmono2⟩, hallf⟩ := hfold
      obtain ⟨hnd2, hov2, hvis2, hord2⟩ := hg2
      have hnamevis2 : name ∈ ((fieldsOf env name).foldl
          (fun s f => ensureStructDecl fuel env f s)
          ⟨name :: st.irDeclsVisited, st.out⟩).irDeclsVisited :=
        hmono2 name (List.mem_cons_self _ _)
      have hmonost : ∀ v ∈ st.irDeclsVisited,
          v ∈ ((fieldsOf env name).foldl (fun s f => ensureStructDecl fuel env f s)
            ⟨name :: st.irDeclsVisited, st.out⟩).irDeclsVisited :=
        fun v hvm => hmono2 v (List.mem_cons_of_mem _ hvm)
      have hout2' : ((fieldsOf env name).foldl
          (fun s f => ensureStructDecl fuel env f s)
          ⟨name :: st.irDeclsVisited, st.out⟩).out = st.out ++ nw2 := hout2
      have hnw2' : ∀ v ∈ nw2, v ∉ st.irDeclsVisited := by
        intro v hvm hvs
        exact hnw2 v hvm (List.mem_cons_of_mem _ hvs)
      by_cases hb : name ∈ env.builtins
      · rw [if_pos hb]
        refine ⟨⟨⟨hnd2, hov2, ?_, hord2⟩, ⟨nw2, hout2', hnw2'⟩, hmonost⟩,
          hnamevis2⟩
        intro v hvv hvb
        rcases hvis2 v hvv hvb with h | h
        · exact Or.inl h
        · rcases List.mem_cons.mp h with rfl | h
          · exact absurd hb hvb
          · exact Or.inr h
      · rw [if_neg hb]
        have hnameout2 : name ∉ ((fieldsOf env name).foldl
            (fun s f => ensureStructDecl fuel env f s)
            ⟨name :: st.irDeclsVisited, st.out⟩).out := by
          rw [hout2']
          intro hmem
          rcases List.mem_append.mp hmem with h | h
          · exact hv (hov name h)
          · exact hnw2 name h (List.mem_cons_self _ _)
        refine ⟨⟨⟨?_, ?_, ?_, ?_⟩, ⟨nw2 ++ [name], ?_, ?_⟩, hmonost⟩, hnamevis2⟩
        · rw [List.nodup_append]
          exact ⟨hnd2, List.nodup_singleton _,
            fun a ha hmem => by
              rw [List.mem_singleton] at hmem
              subst hmem
              exact hnameout2 ha⟩
        · intro v hvm
          rcases List.mem_append.mp hvm with h | h
          · exact hov2 v h
          · rw [List.mem_singleton] at h
            subst h
            exact hnamevis2
        · intro v hvv hvb
          rcases hvis2 v hvv hvb with h | h
          · exact Or.inl (List.mem_append.mpr (Or.inl h))
          · rcases List.mem_cons.mp h with rfl | h
            · exact Or.inl (List.mem_append.mpr (Or.inr (List.mem_singleton.mpr rfl)))
            · exact Or.inr h
        · intro l1 s l2 hsplit f hf hfb
          rcases append_singleton_split
              (show _ ++ [name] = l1 ++ s :: l2 from hsplit)
            with ⟨hl1, hs, _hl2⟩ | ⟨l2', hxs, _hl2⟩
          · rw [hs] at hf
            have hfvis : f ∈ ((fieldsOf env name).foldl
                (fun s f => ensureStructDecl fuel env f s)
                ⟨name :: st.irDeclsVisited, st.out⟩).irDeclsVisited :=
              hallf f hf
            rcases hvis2 f hfvis hfb with h | h
            · rw [hl1]; exact h
            · exfalso
              have hfr := fieldsOf_rank henv hf
              rcases List.mem_cons.mp h with rfl | h
              · omega
              · have := hA f h
                omega
          · exact hord2 l1 s l2' hxs f hf hfb
        · rw [hout2', List.append_assoc]
        · intro v hvm
          rcases List.mem_append.mp hvm with h | h
          · exact hnw2' v h
          · rw [List.mem_singleton] at h
            subst h
            exact hv

/-- C7: over one emit session, at most one struct declaration is written per
distinct mangled name no matter how many references are ensured (the output
has no duplicates), and declarations are processed depth-first: every
non-built-in field type of a declared struct is declared strictly before the
containing struct, assuming the by-value field graph is acyclic (rank) and
the fuel covers the ranks encountered. -/
theorem ensureStructDecl_once_and_ordered (env : StructEnv)
    (rank : String → Nat) (fuel : Nat) (refs : List String)
    (henv : RankOk env rank) (hfuel : ∀ n ∈ refs, rank n < fuel) :
    (emitSession fuel env refs).out.Nodup
    ∧ FieldOrdered env (emitSession fuel env refs).out := by
  have hstart : GoodSt env [] ⟨[], []⟩ := by
    refine ⟨List.nodup_nil, by simp, by simp, ?_⟩
    intro l1 s l2 h
    exact absurd h (by simp)
  have h := ensureStructDecl_fold_spec env rank henv fuel
    (fun name A st h1 h2 h3 => ensureStructDecl_spec env rank henv fuel name A st h1 h2 h3)
    refs [] ⟨[], []⟩ hfuel (by simp) hstart
  exact ⟨h.1.1.1, h.1.1.2.2.2⟩

/-- Struct table for the C7 witness: struct A holds two fields of struct
type B (two references to the same struct); nothing is built-in. -/
def witnessStructEnv : StructEnv :=
  ⟨[("A", ["B", "B"]), ("B", [])], []⟩

/-- Rank function witnessing acyclicity of witnessStructEnv. -/
def witnessRank : String → Nat := fun s => if s = "A" then 1 else 0

/-- Witness for C7: ensuring struct A twice writes B once and A once, B
first. -/
theorem ensureStructDecl_once_and_ordered_witness :
    (emitSession 2 witnessStructEnv ["A", "A"]).out = ["B", "A"]
    ∧ ((emitSession 2 witnessStructEnv ["A", "A"]).out.Nodup
      ∧ FieldOrdered witnessStructEnv (emitSession 2 witnessStructEnv ["A", "A"]).out) :=
  ⟨by decide,
    ensureStructDecl_once_and_ordered witnessStructEnv witnessRank 2 ["A", "A"]
      (by unfold RankOk; decide) (by decide)⟩

/-!
Part 7: structured control-flow emission with the break/continue label
stack, from emitIRStmtsForBlocks (emit.cpp lines 3470-3966).  The embedding
covers the terminator kinds the nested-loop scenario uses — loop,
unconditional branch, if-else and return — and records the emitted text as a
token stream with structural markers.  The multi-level check of lines
3540-3543 has no output effect in the source (the comment marks it an
unhandled case) and is not modelled.
-/

/-- Terminators handled by the region walk (a subset of the kIROp cases of
emit.cpp lines 3572-3948).  A loop terminator carries its target (header),
break and continue block operands; the continue operand is deliberately
ignored by the emitter, exactly as in the source (lines 3654-3664). -/
inductive IRTerminator
  | loopTerm (targetBlock breakBlock continueBlock : Nat)
  | ifElseTerm (cond trueBlock falseBlock afterBlock : Nat)
  | uncondBranch (targetBlock : Nat)
  | returnVoid
deriving DecidableEq, Repr

/-- One basic block: ordinary instructions (by id) and the terminator. -/
structure IRBlockInfo where
  insts : List Nat
  term : IRTerminator
deriving DecidableEq, Repr

/-- A function body as a block graph keyed by block id. -/
def findBlock : List (Nat × IRBlockInfo) → Nat → Option IRBlockInfo
  | [], _ => none
  | (k, b) :: rest, n => if k = n then some b else findBlock rest n

/-- Label operations of the stack (emit.cpp lines 3470-3483). -/
inductive LabelOp
  | breakOp | continueOp
deriving DecidableEq, Repr

/-- The label-stack search of emit.cpp lines 3534-3557: the first entry
registered for the block decides which keyword is emitted. -/
def findLabel : List (LabelOp × Nat) → Nat → Option LabelOp
  | [], _ => none
  | (op, b) :: rest, blk => if b = blk then some op else findLabel rest blk

/-- Label-stack entries a loop pushes for its body (emit.cpp lines
3647-3664): a break entry for the break block and, on top, a continue entry
for the loop header (the targetBlock), never for the loop's continue-block
operand. -/
def loopBodyLabels (labels : List (LabelOp × Nat))
    (targetBlock breakBlock : Nat) : List (LabelOp × Nat) :=
  (LabelOp.continueOp, targetBlock) :: (LabelOp.breakOp, breakBlock) :: labels

/-- Emitted token stream: plain instructions, loop and if-else structure
markers, break/continue keywords tagged with the block they jump to, and
return. -/
inductive OutTok
  | instTok (i : Nat)
  | loopBegin (header : Nat)
  | loopEnd
  | ifBegin (cond : Nat)
  | ifEnd
  | elseBegin
  | elseEnd
  | continueTok (target : Nat)
  | breakTok (target : Nat)
  | returnTok
deriving DecidableEq, Repr

/-- Translation of emitIRStmtsForBlocks (emit.cpp lines 3494-3966).  The
while-loop over blocks is the recursion on fuel; the label check of lines
3534-3557 runs against useLabels (initialLabels until the first block of the
region has been emitted, labels afterwards); the loop case (lines 3631-3698)
pushes a break label for the first body block and both labels afterwards,
emits the body region with end nullptr, and continues with the break block;
the if-else case (lines 3587-3629) emits both sub-regions against the after
block, skipping an else branch that would be empty; the unconditional branch
(lines 3776-3796) moves to its target; and the back-edge check of line 3964
returns when control flow reaches the region's begin block again. -/
def emitRun (g : List (Nat × IRBlockInfo)) :
    Nat → Nat → Nat → Option Nat → List (LabelOp × Nat) → List (LabelOp × Nat) →
    List OutTok
  | 0, _, _, _, _, _ => []
  | fuel + 1, beginB, block, endB, useLabels, labels =>
    if endB = some block then []
    else
      match findLabel useLabels block with
      | some LabelOp.breakOp => [OutTok.breakTok block]
      | some LabelOp.continueOp => [OutTok.continueTok block]
      | none =>
        match findBlock g block with
        | none => []
        | some bi =>
          bi.insts.map OutTok.instTok ++
          match bi.term with
          | .returnVoid => [OutTok.returnTok]
          | .uncondBranch target =>
              if target = beginB then []
              else emitRun g fuel beginB target endB labels labels
          | .ifElseTerm cond trueBlock falseBlock afterBlock =>
              ([OutTok.ifBegin cond]
                ++ emitRun g fuel trueBlock trueBlock (some afterBlock) labels labels
                ++ [OutTok.ifEnd]
                ++ (if falseBlock = afterBlock then []
                  else [OutTok.elseBegin]
                    ++ emitRun g fuel falseBlock falseBlock (some afterBlock) labels labels
                    ++ [OutTok.elseEnd]))
              ++ (if afterBlock = beginB then []
                else emitRun g fuel beginB afterBlock endB labels labels)
          | .loopTerm targetBlock breakBlock _continueBlock =>
              ([OutTok.loopBegin targetBlock]
                ++ emitRun g fuel targetBlock targetBlock none
                    ((LabelOp.breakOp, breakBlock) :: labels)
                    (loopBodyLabels labels targetBlock breakBlock)
                ++ [OutTok.loopEnd])
              ++ (if breakBlock = beginB then []
                else emitRun g fuel beginB breakBlock endB labels labels)

/-- Entry point of the region walker, mirroring the signature of
emitIRStmtsForBlocks: begin block, end block, initial labels and the labels
active after the first block. -/
def emitIRStmtsForBlocks (g : List (Nat × IRBlockInfo)) (fuel : Nat)
    (beginB : Nat) (endB : Option Nat)
    (initialLabels labels : List (LabelOp × Nat)) : List OutTok :=
  emitRun g fuel beginB beginB endB initialLabels labels

/-- Structural checker: walking the token stream with a stack of open loop
headers, every continue keyword must target the header of the innermost
open loop at its position. -/
def contsResolveInnermost : List Nat → List OutTok → Bool
  | _, [] => true
  | stack, OutTok.loopBegin h :: r => contsResolveInnermost (h :: stack) r
  | stack, OutTok.loopEnd :: r => contsResolveInnermost stack.tail r
  | stack, OutTok.continueTok t :: r =>
      (stack.head? == some t) && contsResolveInnermost stack r
  | stack, _ :: r => contsResolveInnermost stack r

/-- The nested-loop scenario of the claim: block 0 opens the outer loop
(header 1, break 9, continue-block operand 18), block 1 opens the inner loop
(header 2, break 6, continue-block operand 17), the inner body runs an
if-else whose then-branch ends in a continue branch to the inner header 2,
the join block breaks to 6, block 6 leaves the outer loop body, block 9
returns. -/
def nestedLoopGraph : List (Nat × IRBlockInfo) :=
  [ (0, ⟨[], IRTerminator.loopTerm 1 9 18⟩),
    (1, ⟨[], IRTerminator.loopTerm 2 6 17⟩),
    (2, ⟨[1], IRTerminator.ifElseTerm 0 3 4 4⟩),
    (3, ⟨[2], IRTerminator.uncondBranch 2⟩),
    (4, ⟨[3], IRTerminator.uncondBranch 6⟩),
    (6, ⟨[], IRTerminator.uncondBranch 9⟩),
    (9, ⟨[], IRTerminator.returnVoid⟩) ]

/-- C8: the continue label a loop registers is always its header block — the
only continue entry loopBodyLabels adds on top of the enclosing labels is
(continueOp, targetBlock), never the loop's continue-block operand — and in
the nested-loop scenario the continue branch to the inner header emits a
continue keyword that resolves to the innermost enclosing loop: the emitted
stream nests the continue inside both loops with the inner header on top of
the open-loop stack, and no continue for the outer header or for either
continue-block operand is ever emitted. -/
theorem loop_continue_label_innermost :
    (∀ (labels : List (LabelOp × Nat)) (targetBlock breakBlock contB : Nat),
      (LabelOp.continueOp, contB) ∈ loopBodyLabels labels targetBlock breakBlock →
      contB = targetBlock ∨ (LabelOp.continueOp, contB) ∈ labels)
    ∧ emitIRStmtsForBlocks nestedLoopGraph 20 0 none [] []
      = [OutTok.loopBegin 1,
          OutTok.loopBegin 2, OutTok.instTok 1, OutTok.ifBegin 0,
          OutTok.instTok 2, OutTok.continueTok 2, OutTok.ifEnd,
          OutTok.instTok 3, OutTok.breakTok 6, OutTok.loopEnd,
          OutTok.breakTok 9, OutTok.loopEnd,
          OutTok.returnTok]
    ∧ contsResolveInnermost [] (emitIRStmtsForBlocks nestedLoopGraph 20 0 none [] [])
      = true
    ∧ OutTok.continueTok 2 ∈ emitIRStmtsForBlocks nestedLoopGraph 20 0 none [] []
    ∧ (∀ tok ∈ emitIRStmtsForBlocks nestedLoopGraph 20 0 none [] [],
        tok ≠ OutTok.continueTok 1 ∧ tok ≠ OutTok.continueTok 17
          ∧ tok ≠ OutTok.continueTok 18) := by
  refine ⟨?_, by decide, by decide, by decide, by decide⟩
  intro labels targetBlock breakBlock contB hmem
  rcases List.mem_cons.mp hmem with h | h
  · left
    exact congrArg Prod.snd h
  · rcases List.mem_cons.mp h with h | h
    · exfalso
      have hfst : LabelOp.continueOp = LabelOp.breakOp := congrArg Prod.fst h
      exact absurd hfst (by decide)
    · exact Or.inr h

/-- Witness for C8's general conjunct at a concrete label stack. -/
theorem loop_continue_label_innermost_witness :
    (5 : Nat) = 5 ∨ (LabelOp.continueOp, 5) ∈ ([] : List (LabelOp × Nat)) :=
  loop_continue_label_innermost.1 [] 5 6 5 (by decide)

/-!
Part 8: module-level emission order, from emitIRModule (emit.cpp lines
5484-5506), emitIRFuncDecl (lines 4324-4374), emitIRFunc (lines 4438-4468),
isDefinition (lines 3968-3974), isTargetIntrinsic (lines 4403-4411) and
emitIRGlobalInst (lines 5263-5288).
-/

/-- The properties of an IR function that decide what is emitted for it. -/
structure IRFuncInfo where
  fid : Nat
  hasGenericDecl : Bool
  hasBlocks : Bool
  isEntryPoint : Bool
deriving DecidableEq, Repr

/-- Global instructions handled by emitIRGlobalInst. -/
inductive IRGlobalInst
  | funcInst (f : IRFuncInfo)
  | globalVarInst (v : Nat)
  | globalConstantInst (v : Nat) (hasInit : Bool)
  | varInst (v : Nat)
  | otherInst
deriving DecidableEq, Repr

/-- Module-level output tokens: struct/type declarations from the used-types
pre-pass, function forward declarations, function bodies, global variable
and constant declarations, global-constant initializers, and global
variables of Var kind. -/
inductive ModTok
  | typeDeclTok (n : Nat)
  | funcFwdDeclTok (n : Nat)
  | funcBodyTok (n : Nat)
  | globalVarTok (n : Nat)
  | globalConstantTok (n : Nat)
  | globalInitTok (n : Nat)
  | localVarTok (n : Nat)
deriving DecidableEq, Repr

/-- Translation of isDefinition (emit.cpp lines 3968-3974): a function is a
definition when it has blocks. -/
def isDefinition (f : IRFuncInfo) : Bool := f.hasBlocks

/-- Translation of isTargetIntrinsic (emit.cpp lines 4403-4411): any
function declaration (non-definition) counts as a target intrinsic. -/
def isTargetIntrinsic (f : IRFuncInfo) : Bool := !isDefinition f

/-- Translation of emitIRFuncDecl (emit.cpp lines 4324-4374): no forward
declaration for generic functions, for target intrinsics, or for entry
points; otherwise the declaration line. -/
def emitIRFuncDecl (f : IRFuncInfo) : List ModTok :=
  if f.hasGenericDecl then []
  else if isTargetIntrinsic f then []
  else if f.isEntryPoint then []
  else [ModTok.funcFwdDeclTok f.fid]

/-- A function definition's body text (emitIRSimpleFunc and the entry-point
path, emit.cpp lines 4438-4468). -/
def emitIRFunc (f : IRFuncInfo) : List ModTok :=
  if f.hasGenericDecl then []
  else if !isDefinition f then
    if isTargetIntrinsic f then [] else emitIRFuncDecl f
  else [ModTok.funcBodyTok f.fid]

/-- Translation of emitIRGlobalInst (emit.cpp lines 5263-5288) together with
emitIRGlobalConstant (lines 5230-5261), whose initializer is emitted inline
after the declaration when the constant has one. -/
def emitIRGlobalInst : IRGlobalInst → List ModTok
  | .funcInst f => emitIRFunc f
  | .globalVarInst v => [ModTok.globalVarTok v]
  | .globalConstantInst v hasInit =>
      ModTok.globalConstantTok v :: (if hasInit then [ModTok.globalInitTok v] else [])
  | .varInst v => [ModTok.localVarTok v]
  | .otherInst => []

/-- Translation of emitIRModule (emit.cpp lines 5484-5506): first the
used-types pre-pass (emitIRUsedTypesForModule, which writes only type
declarations; it is passed in as typePhase), then one forward declaration
per function instruction, then every global instruction's text. -/
def emitIRModule (typePhase : List ModTok) (m : List IRGlobalInst) :
    List ModTok :=
  typePhase
  ++ (m.map (fun ii => match ii with
      | IRGlobalInst.funcInst f => emitIRFuncDecl f
      | _ => [])).flatten
  ++ (m.map emitIRGlobalInst).flatten

/-- Body-text tokens: function bodies and global-constant initializers. -/
def isBodyTok : ModTok → Bool
  | .funcBodyTok _ => true
  | .globalInitTok _ => true
  | _ => false

/-- Forward-declaration tokens. -/
def isFwdTok : ModTok → Bool
  | .funcFwdDeclTok _ => true
  | _ => false

/-- The claim C9 as stated, for a module and a used-types pre-pass output:
every function in the module gets a forward declaration, placed before every
function body and global initializer. -/
def AllFuncsForwardDeclared (typePhase : List ModTok)
    (m : List IRGlobalInst) : Prop :=
  ∀ f : IRFuncInfo, IRGlobalInst.funcInst f ∈ m →
    ∃ l1 l2, emitIRModule typePhase m = l1 ++ ModTok.funcFwdDeclTok f.fid :: l2
      ∧ ∀ tok ∈ l1, isBodyTok tok = false

/-- C9 (counterexample): a module whose only function is an entry point with
a body emits that body with no forward declaration at all (emitIRFuncDecl
returns without emitting for entry points, emit.cpp lines 4339-4345), so the
claim as stated fails. -/
theorem emitIRModule_entryPoint_no_fwdDecl :
    ¬ AllFuncsForwardDeclared [] [IRGlobalInst.funcInst ⟨7, false, true, true⟩] := by
  intro h
  obtain ⟨l1, l2, heq, _⟩ := h ⟨7, false, true, true⟩ (by decide)
  have : emitIRModule [] [IRGlobalInst.funcInst ⟨7, false, true, true⟩]
      = [ModTok.funcBodyTok 7] := by decide
  rw [this] at heq
  rcases l1 with _ | ⟨a, l1⟩
  · simp at heq
  · rcases l1 with _ | ⟨b, l1⟩ <;> simp at heq

lemma emitIRFuncDecl_tokens (f : IRFuncInfo) :
    ∀ tok ∈ emitIRFuncDecl f, isFwdTok tok = true ∧ isBodyTok tok = false := by
  intro tok htok
  rw [emitIRFuncDecl] at htok
  split at htok
  · simp at htok
  · split at htok
    · simp at htok
    · split at htok
      · simp at htok
      · rw [List.mem_singleton] at htok
        subst htok
        exact ⟨rfl, rfl⟩

lemma emitIRGlobalInst_no_fwd (ii : IRGlobalInst) :
    ∀ tok ∈ emitIRGlobalInst ii, isFwdTok tok = false := by
  intro tok htok
  cases ii with
  | funcInst f =>
    rw [emitIRGlobalInst, emitIRFunc] at htok
    split at htok
    · simp at htok
    · split at htok
      · rename_i hdef
        rw [if_pos (show isTargetIntrinsic f = true from hdef)] at htok
        simp at htok
      · rw [List.mem_singleton] at htok
        subst htok
        rfl
  | globalVarInst v =>
    rw [emitIRGlobalInst, List.mem_singleton] at htok
    subst htok
    rfl
  | globalConstantInst v hasInit =>
    rw [emitIRGlobalInst] at htok
    rcases List.mem_cons.mp htok with rfl | htok
    · rfl
    · split at htok
      · rw [List.mem_singleton] at htok
        subst htok
        rfl
      · simp at htok
  | varInst v =>
    rw [emitIRGlobalInst, List.mem_singleton] at htok
    subst htok
    rfl
  | otherInst =>
    rw [emitIRGlobalInst] at htok
    simp at htok

lemma flatten_fwd_tokens (m : List IRGlobalInst) :
    ∀ tok ∈ (m.map (fun ii => match ii with
        | IRGlobalInst.funcInst f => emitIRFuncDecl f
        | _ => ([] : List ModTok))).flatten,
      isFwdTok tok = true ∧ isBodyTok tok = false := by
  intro tok htok
  rw [List.mem_flatten] at htok
  obtain ⟨l, hl, htl⟩ := htok
  rw [List.mem_map] at hl
  obtain ⟨ii, _hii, rfl⟩ := hl
  cases ii with
  | funcInst f => exact emitIRFuncDecl_tokens f tok htl
  | globalVarInst v => simp at htl
  | globalConstantInst v hasInit => simp at htl
  | varInst v => simp at htl
  | otherInst => simp at htl

lemma flatten_global_no_fwd (m : List IRGlobalInst) :
    ∀ tok ∈ (m.map emitIRGlobalInst).flatten, isFwdTok tok = false := by
  intro tok htok
  rw [List.mem_flatten] at htok
  obtain ⟨l, hl, htl⟩ := htok
  rw [List.mem_map] at hl
  obtain ⟨ii, _hii, rfl⟩ := hl
  exact emitIRGlobalInst_no_fwd ii tok htl

lemma prefix_of_fwd_in_left {u v l1 l2 : List ModTok} {n : Nat}
    (huv : u ++ v = l1 ++ ModTok.funcFwdDeclTok n :: l2)
    (hv : ∀ tok ∈ v, isFwdTok tok = false) :
    ∀ tok ∈ l1, tok ∈ u := by
  rcases List.append_eq_append_iff.mp huv with ⟨a', _ha1, ha2⟩ | ⟨c', hc1, hc2⟩
  · exfalso
    have hfwd : ModTok.funcFwdDeclTok n ∈ v := by
      rw [ha2]
      exact List.mem_append.mpr (Or.inr (List.mem_cons_self _ _))
    exact absurd (hv _ hfwd) (by simp [isFwdTok])
  · cases c' with
    | nil =>
      exfalso
      rw [List.nil_append] at hc2
      have hfwd : ModTok.funcFwdDeclTok n ∈ v := by
        rw [← hc2]
        exact List.mem_cons_self _ _
      exact absurd (hv _ hfwd) (by simp [isFwdTok])
    | cons x c'' =>
      intro tok htok
      rw [hc1]
      exact List.mem_append.mpr (Or.inl htok)

/-- C9 (amended): every non-generic, non-entry-point function with a body in
the module gets exactly the forward declaration pass before the body pass:
its forward declaration appears in the output, and any prefix of the output
ending at a forward declaration contains no function body and no global
initializer (generic functions, target-intrinsic declarations, and entry
points are skipped by emitIRFuncDecl and get no forward declaration). -/
theorem emitIRModule_fwd_decls_before_bodies (typePhase : List ModTok)
    (m : List IRGlobalInst)
    (hty : ∀ tok ∈ typePhase, isBodyTok tok = false ∧ isFwdTok tok = false) :
    (∀ f : IRFuncInfo, IRGlobalInst.funcInst f ∈ m →
      f.hasGenericDecl = false → f.hasBlocks = true → f.isEntryPoint = false →
      ModTok.funcFwdDeclTok f.fid ∈ emitIRModule typePhase m)
    ∧ (∀ l1 n l2, emitIRModule typePhase m
          = l1 ++ ModTok.funcFwdDeclTok n :: l2 →
        ∀ tok ∈ l1, isBodyTok tok = false) := by
  constructor
  · intro f hf hg hb he
    rw [emitIRModule]
    refine List.mem_append.mpr (Or.inl (List.mem_append.mpr (Or.inr ?_)))
    rw [List.mem_flatten]
    refine ⟨emitIRFuncDecl f, List.mem_map.mpr ⟨IRGlobalInst.funcInst f, hf, rfl⟩, ?_⟩
    rw [emitIRFuncDecl, if_neg (by simp [hg]),
      if_neg (by simp [isTargetIntrinsic, isDefinition, hb]),
      if_neg (by simp [he])]
    exact List.mem_singleton.mpr rfl
  · intro l1 n l2 heq tok htok
    rw [emitIRModule] at heq
    have hleft := prefix_of_fwd_in_left heq (flatten_global_no_fwd m) tok htok
    rcases List.mem_append.mp hleft with h | h
    · exact (hty tok h).1
    · exact (flatten_fwd_tokens m tok h).2

/-- Witness for the amended C9: a module with one ordinary defined function
and one initialized global constant. -/
theorem emitIRModule_fwd_decls_before_bodies_witness :
    emitIRModule []
        [IRGlobalInst.funcInst ⟨1, false, true, false⟩,
          IRGlobalInst.globalConstantInst 2 true]
      = [ModTok.funcFwdDeclTok 1, ModTok.funcBodyTok 1,
          ModTok.globalConstantTok 2, ModTok.globalInitTok 2]
    ∧ ModTok.funcFwdDeclTok 1 ∈ emitIRModule []
        [IRGlobalInst.funcInst ⟨1, false, true, false⟩,
          IRGlobalInst.globalConstantInst 2 true]
    ∧ (∀ tok ∈ ([] : List ModTok), isBodyTok tok = false) :=
  ⟨by decide,
    (emitIRModule_fwd_decls_before_bodies []
        [IRGlobalInst.funcInst ⟨1, false, true, false⟩,
          IRGlobalInst.globalConstantInst 2 true] (by decide)).1
      ⟨1, false, true, false⟩ (by decide) rfl rfl rfl,
    (emitIRModule_fwd_decls_before_bodies []
        [IRGlobalInst.funcInst ⟨1, false, true, false⟩,
          IRGlobalInst.globalConstantInst 2 true] (by decide)).2
      [] 1 [ModTok.funcBodyTok 1, ModTok.globalConstantTok 2,
        ModTok.globalInitTok 2] (by decide)⟩

end SlangSpec
